import Mathlib

/-!
Shallow embedding of `scrapy/addons.py` (the `AddonManager` class).

The Python code orchestrates two phases over the identifiers produced by
`build_component_list(settings["ADDONS"])`:

* `load_settings` (Phase 2, post-context): for each class path, inside a
  `try` block, `load_object` the class, `build_from_crawler` an instance,
  call `addon.update_settings(settings)` if the instance has that attribute,
  and append the instance to `self.addons`; `except NotConfigured as e`
  logs a warning iff `e.args` is nonempty and continues with the next path;
  after the loop a summary `logger.info` line is emitted.
* `load_pre_crawler_settings` (Phase 1, pre-context): a classmethod with no
  `try` block: for each class path, `load_object` the class and call the
  class-level `update_pre_crawler_settings(settings)` if present.

External collaborators (`build_component_list`, `load_object`,
`build_from_crawler`, `hasattr`, the hooks themselves) are parameters of an
`Env` structure; Python exceptions become an explicit `Except`-style error
channel, with `NotConfigured` a distinguished variant.  Python's in-place
mutation of the shared settings object is explicit state passing, and
mutations performed before an exception is raised persist (no rollback), so
every fallible external call returns the new settings together with the
outcome.  Each external invocation is also recorded in a trace so that
ordering and frame properties are statable.
-/

namespace Scrapy

/-- Python exceptions relevant to the manager: `NotConfigured` (carrying
`e.args`, modelled as a list of strings) versus every other exception. -/
inductive Exc where
  | notConfigured (args : List String)
  | other (msg : String)
deriving DecidableEq, Repr

/-- Log records emitted by the manager: the per-disabled-addon warning
(class path and `e.args[0]`) and the final summary info line. -/
inductive LogEvent (I : Type) where
  | warning (clspath : String) (earg : String)
  | info (addons : List I)
deriving DecidableEq, Repr

/-- Trace of external invocations made by the manager, used to observe
ordering and which collaborators a phase touches.  Hook events record the
settings value the hook is invoked with. -/
inductive CallEvent (σ : Type) where
  | load (clspath : String)
  | build (clspath : String)
  | postHook (clspath : String) (s : σ)
  | preHook (clspath : String) (s : σ)
deriving DecidableEq, Repr

/-- The external collaborators of `AddonManager`, over a settings type `σ`,
a component-definition type `D` and an instance type `I`:

* `resolve`: `build_component_list(settings["ADDONS"])`;
* `load`: `load_object` (receives only the path string, so it cannot touch
  the settings object);
* `build`: `build_from_crawler(addoncls, self.crawler)` with the crawler
  fixed; the constructor can reach the settings through the crawler, so it
  may mutate them even when it raises;
* `hasUpdateSettings` / `updateSettings`: `hasattr(addon, "update_settings")`
  and the instance-level hook (mutates settings in place, may raise);
* `hasPreHook` / `preHook`: `hasattr(addoncls, "update_pre_crawler_settings")`
  and the class-level hook. -/
structure Env (σ D I : Type) where
  resolve : σ → List String
  load : String → Except Exc D
  build : D → σ → σ × Except Exc I
  hasUpdateSettings : I → Bool
  updateSettings : I → σ → σ × Except Exc Unit
  hasPreHook : D → Bool
  preHook : D → σ → σ × Except Exc Unit

/-- The state threaded through `load_settings`: the shared settings object,
the manager's `self.addons` list, the log, and the call trace. -/
structure LoadState (σ I : Type) where
  settings : σ
  addons : List I
  log : List (LogEvent I)
  trace : List (CallEvent σ)
deriving DecidableEq, Repr

/-- The body of the `try` block in `load_settings` for one class path:
load the class, build the instance, run `update_settings` when present,
append to `self.addons`.  Returns the state reached together with the
exception escaping the block, if any. -/
def tryBody {σ D I : Type} (env : Env σ D I) (clspath : String)
    (st : LoadState σ I) : LoadState σ I × Option Exc :=
  let st0 : LoadState σ I := { st with trace := st.trace ++ [.load clspath] }
  match env.load clspath with
  | .error e => (st0, some e)
  | .ok addoncls =>
    let st1 : LoadState σ I := { st0 with trace := st0.trace ++ [.build clspath] }
    match env.build addoncls st.settings with
    | (s2, .error e) => ({ st1 with settings := s2 }, some e)
    | (s2, .ok addon) =>
      if env.hasUpdateSettings addon then
        let st2 : LoadState σ I :=
          { st1 with settings := s2, trace := st1.trace ++ [.postHook clspath s2] }
        match env.updateSettings addon s2 with
        | (s3, .error e) => ({ st2 with settings := s3 }, some e)
        | (s3, .ok _) =>
          ({ st2 with settings := s3, addons := st2.addons ++ [addon] }, none)
      else
        ({ st1 with settings := s2, addons := st1.addons ++ [addon] }, none)

/-- One iteration of the `load_settings` loop: the `try` body wrapped in
`except NotConfigured as e`, which logs a warning iff `e.args` is nonempty
and swallows the exception; any other exception propagates. -/
def stepOne {σ D I : Type} (env : Env σ D I) (clspath : String)
    (st : LoadState σ I) : LoadState σ I × Option Exc :=
  match tryBody env clspath st with
  | (st1, none) => (st1, none)
  | (st1, some (.notConfigured [])) => (st1, none)
  | (st1, some (.notConfigured (a :: _))) =>
    ({ st1 with log := st1.log ++ [.warning clspath a] }, none)
  | (st1, some (.other m)) => (st1, some (.other m))

/-- The `load_settings` loop over a list of class paths: a propagating
exception aborts the remaining iterations. -/
def loadSettingsAux {σ D I : Type} (env : Env σ D I) :
    List String → LoadState σ I → LoadState σ I × Option Exc
  | [], st => (st, none)
  | p :: ps, st =>
    match stepOne env p st with
    | (st1, none) => loadSettingsAux env ps st1
    | (st1, some e) => (st1, some e)

/-- Initial `LoadState` for a call to `load_settings`: the settings argument
and the manager's current `self.addons`; nothing logged or traced yet. -/
def initState {σ I : Type} (s : σ) (a : List I) : LoadState σ I :=
  ⟨s, a, [], []⟩

/-- The code after the `load_settings` loop: when the loop finished without
a propagating exception, emit the summary `logger.info` line; a propagating
exception skips it. -/
def finishPhase {σ I : Type} : LoadState σ I × Option Exc → LoadState σ I × Option Exc
  | (st, none) => ({ st with log := st.log ++ [.info st.addons] }, none)
  | (st, some e) => (st, some e)

/-- `AddonManager.load_settings`: iterate over
`build_component_list(settings["ADDONS"])` and, when the loop finishes
without a propagating exception, emit the summary info line. -/
def loadSettings {σ D I : Type} (env : Env σ D I) (s : σ) (a : List I) :
    LoadState σ I × Option Exc :=
  finishPhase (loadSettingsAux env (env.resolve s) (initState s a))

/-- The state threaded through `load_pre_crawler_settings`: the settings
object and the call trace.  The classmethod has no access to a manager
instance, so there is no `addons` component at all. -/
structure PreState (σ : Type) where
  settings : σ
  trace : List (CallEvent σ)
deriving DecidableEq, Repr

/-- One iteration of the `load_pre_crawler_settings` loop: load the class
and call its `update_pre_crawler_settings` classmethod when present.  No
`try` block: every exception propagates. -/
def preStep {σ D I : Type} (env : Env σ D I) (clspath : String)
    (st : PreState σ) : PreState σ × Option Exc :=
  let st0 : PreState σ := { st with trace := st.trace ++ [.load clspath] }
  match env.load clspath with
  | .error e => (st0, some e)
  | .ok addoncls =>
    if env.hasPreHook addoncls then
      let st1 : PreState σ :=
        { st0 with trace := st0.trace ++ [.preHook clspath st.settings] }
      match env.preHook addoncls st.settings with
      | (s2, .error e) => ({ st1 with settings := s2 }, some e)
      | (s2, .ok _) => ({ st1 with settings := s2 }, none)
    else (st0, none)

/-- The `load_pre_crawler_settings` loop over a list of class paths. -/
def loadPreCrawlerAux {σ D I : Type} (env : Env σ D I) :
    List String → PreState σ → PreState σ × Option Exc
  | [], st => (st, none)
  | p :: ps, st =>
    match preStep env p st with
    | (st1, none) => loadPreCrawlerAux env ps st1
    | (st1, some e) => (st1, some e)

/-- `AddonManager.load_pre_crawler_settings`: iterate over
`build_component_list(settings["ADDONS"])`. -/
def loadPreCrawlerSettings {σ D I : Type} (env : Env σ D I) (s : σ) :
    PreState σ × Option Exc :=
  loadPreCrawlerAux env (env.resolve s) ⟨s, []⟩

/-- Extract the class path of a `load` event, if the event is one. -/
def CallEvent.loadPath? {σ : Type} : CallEvent σ → Option String
  | .load p => some p
  | _ => none

/-- The class paths of the `load` events of a trace, in order: the sequence
of identifiers the phase started processing. -/
def loadPaths {σ : Type} (tr : List (CallEvent σ)) : List String :=
  tr.filterMap CallEvent.loadPath?

/-- Extract the class path of a `postHook` event, if the event is one. -/
def CallEvent.postHookPath? {σ : Type} : CallEvent σ → Option String
  | .postHook p _ => some p
  | _ => none

/-- The class paths of the `postHook` events of a trace, in order: the
sequence of `update_settings` invocations of Phase 2. -/
def postHookPaths {σ : Type} (tr : List (CallEvent σ)) : List String :=
  tr.filterMap CallEvent.postHookPath?

/-- Extract the class path of a `preHook` event, if the event is one. -/
def CallEvent.preHookPath? {σ : Type} : CallEvent σ → Option String
  | .preHook p _ => some p
  | _ => none

/-- The class paths of the `preHook` events of a trace, in order: the
sequence of `update_pre_crawler_settings` invocations of Phase 1. -/
def preHookPaths {σ : Type} (tr : List (CallEvent σ)) : List String :=
  tr.filterMap CallEvent.preHookPath?

/-! Helper lemmas about the loop structure. -/

theorem loadSettingsAux_append {σ D I : Type} (env : Env σ D I) (l1 l2 : List String)
    (st : LoadState σ I) :
    loadSettingsAux env (l1 ++ l2) st =
      match loadSettingsAux env l1 st with
      | (st1, none) => loadSettingsAux env l2 st1
      | (st1, some e) => (st1, some e) := by
  induction l1 generalizing st with
  | nil => rfl
  | cons p ps ih =>
    simp only [List.cons_append, loadSettingsAux]
    rcases h : stepOne env p st with ⟨st1, exc⟩
    cases exc with
    | none => simp [ih]
    | some e => rfl

theorem tryBody_loadPaths {σ D I : Type} (env : Env σ D I) (p : String)
    (st : LoadState σ I) :
    loadPaths ((tryBody env p st).1).trace = loadPaths st.trace ++ [p] := by
  unfold tryBody
  rcases hl : env.load p with e | d
  · simp [hl, loadPaths, CallEvent.loadPath?]
  · rcases hb : env.build d st.settings with ⟨s2, r2⟩
    rcases r2 with e | inst
    · simp [hl, hb, loadPaths, CallEvent.loadPath?]
    · by_cases hcap : env.hasUpdateSettings inst
      · rcases hu : env.updateSettings inst s2 with ⟨s3, r3⟩
        rcases r3 with e | u
        · simp [hl, hb, hcap, hu, loadPaths, CallEvent.loadPath?]
        · simp [hl, hb, hcap, hu, loadPaths, CallEvent.loadPath?]
      · simp [hl, hb, hcap, loadPaths, CallEvent.loadPath?]

theorem tryBody_addons_of_error {σ D I : Type} (env : Env σ D I) (p : String)
    (st st' : LoadState σ I) (e : Exc) (h : tryBody env p st = (st', some e)) :
    st'.addons = st.addons := by
  unfold tryBody at h
  rcases hl : env.load p with e' | d
  · simp [hl] at h; simp [← h.1]
  · rcases hb : env.build d st.settings with ⟨s2, r2⟩
    rcases r2 with e' | inst
    · simp [hl, hb] at h; simp [← h.1]
    · by_cases hcap : env.hasUpdateSettings inst
      · rcases hu : env.updateSettings inst s2 with ⟨s3, r3⟩
        rcases r3 with e' | u
        · simp [hl, hb, hcap, hu] at h; simp [← h.1]
        · simp [hl, hb, hcap, hu] at h
      · simp [hl, hb, hcap] at h

theorem stepOne_loadPaths {σ D I : Type} (env : Env σ D I) (p : String)
    (st : LoadState σ I) :
    loadPaths ((stepOne env p st).1).trace = loadPaths st.trace ++ [p] := by
  have h := tryBody_loadPaths env p st
  unfold stepOne
  rcases hb : tryBody env p st with ⟨st1, exc⟩
  rw [hb] at h
  rcases exc with _ | e
  · simpa using h
  · rcases e with args | m
    · rcases args with _ | ⟨a, rest⟩
      · simpa using h
      · simpa using h
    · simpa using h

theorem stepOne_addons_of_error {σ D I : Type} (env : Env σ D I) (p : String)
    (st st' : LoadState σ I) (e : Exc) (h : stepOne env p st = (st', some e)) :
    st'.addons = st.addons := by
  unfold stepOne at h
  rcases hb : tryBody env p st with ⟨st1, exc⟩
  rw [hb] at h
  rcases exc with _ | e'
  · simp at h
  · rcases e' with args | m
    · rcases args with _ | ⟨a, rest⟩ <;> simp at h
    · simp at h
      rw [← h.1]
      exact tryBody_addons_of_error env p st st1 (.other m) hb

theorem stepOne_addons_extend {σ D I : Type} (env : Env σ D I) (p : String)
    (st : LoadState σ I) :
    ∃ tl, ((stepOne env p st).1).addons = st.addons ++ tl := by
  have haux : ∃ tl, ((tryBody env p st).1).addons = st.addons ++ tl := by
    unfold tryBody
    rcases hl : env.load p with e | d
    · exact ⟨[], by simp [hl]⟩
    · rcases hb : env.build d st.settings with ⟨s2, r2⟩
      rcases r2 with e | inst
      · exact ⟨[], by simp [hl, hb]⟩
      · by_cases hcap : env.hasUpdateSettings inst
        · rcases hu : env.updateSettings inst s2 with ⟨s3, r3⟩
          rcases r3 with e | u
          · exact ⟨[], by simp [hl, hb, hcap, hu]⟩
          · exact ⟨[inst], by simp [hl, hb, hcap, hu]⟩
        · exact ⟨[inst], by simp [hl, hb, hcap]⟩
  unfold stepOne
  rcases hb : tryBody env p st with ⟨st1, exc⟩
  rw [hb] at haux
  rcases exc with _ | e
  · simpa using haux
  · rcases e with args | m
    · rcases args with _ | ⟨a, rest⟩
      · simpa using haux
      · simpa using haux
    · simpa using haux

theorem stepOne_trace_extend {σ D I : Type} (env : Env σ D I) (p : String)
    (st : LoadState σ I) :
    ∃ tl, ((stepOne env p st).1).trace = st.trace ++ tl := by
  have haux : ∃ tl, ((tryBody env p st).1).trace = st.trace ++ tl := by
    unfold tryBody
    rcases hl : env.load p with e | d
    · exact ⟨[.load p], by simp [hl]⟩
    · rcases hb : env.build d st.settings with ⟨s2, r2⟩
      rcases r2 with e | inst
      · exact ⟨[.load p, .build p], by simp [hl, hb]⟩
      · by_cases hcap : env.hasUpdateSettings inst
        · rcases hu : env.updateSettings inst s2 with ⟨s3, r3⟩
          rcases r3 with e | u
          · exact ⟨[.load p, .build p, .postHook p s2], by simp [hl, hb, hcap, hu]⟩
          · exact ⟨[.load p, .build p, .postHook p s2], by simp [hl, hb, hcap, hu]⟩
        · exact ⟨[.load p, .build p], by simp [hl, hb, hcap]⟩
  unfold stepOne
  rcases hb : tryBody env p st with ⟨st1, exc⟩
  rw [hb] at haux
  rcases exc with _ | e
  · simpa using haux
  · rcases e with args | m
    · rcases args with _ | ⟨a, rest⟩
      · simpa using haux
      · simpa using haux
    · simpa using haux

theorem loadSettingsAux_loadPaths_of_none {σ D I : Type} (env : Env σ D I)
    (l : List String) (st : LoadState σ I)
    (h : (loadSettingsAux env l st).2 = none) :
    loadPaths ((loadSettingsAux env l st).1).trace = loadPaths st.trace ++ l := by
  induction l generalizing st with
  | nil => simp [loadSettingsAux]
  | cons p ps ih =>
    simp only [loadSettingsAux] at h ⊢
    rcases hs : stepOne env p st with ⟨st1, exc⟩
    simp only [hs] at h ⊢
    rcases exc with _ | e
    · have hih := ih st1 (by simpa using h)
      have h2 := stepOne_loadPaths env p st
      rw [hs] at h2
      simp [hih, h2]
    · simp at h

theorem loadSettingsAux_addons_extend {σ D I : Type} (env : Env σ D I)
    (l : List String) (st : LoadState σ I) :
    ∃ tl, ((loadSettingsAux env l st).1).addons = st.addons ++ tl := by
  induction l generalizing st with
  | nil => exact ⟨[], by simp [loadSettingsAux]⟩
  | cons p ps ih =>
    simp only [loadSettingsAux]
    rcases hs : stepOne env p st with ⟨st1, exc⟩
    have h1 := stepOne_addons_extend env p st
    rw [hs] at h1
    rcases h1 with ⟨t1, h1⟩
    rcases exc with _ | e
    · rcases ih st1 with ⟨t2, h2⟩
      have h1' : st1.addons = st.addons ++ t1 := by simpa using h1
      exact ⟨t1 ++ t2, by simp [h2, h1', List.append_assoc]⟩
    · exact ⟨t1, by simpa using h1⟩

theorem loadSettingsAux_trace_extend {σ D I : Type} (env : Env σ D I)
    (l : List String) (st : LoadState σ I) :
    ∃ tl, ((loadSettingsAux env l st).1).trace = st.trace ++ tl := by
  induction l generalizing st with
  | nil => exact ⟨[], by simp [loadSettingsAux]⟩
  | cons p ps ih =>
    simp only [loadSettingsAux]
    rcases hs : stepOne env p st with ⟨st1, exc⟩
    have h1 := stepOne_trace_extend env p st
    rw [hs] at h1
    rcases h1 with ⟨t1, h1⟩
    rcases exc with _ | e
    · rcases ih st1 with ⟨t2, h2⟩
      have h1' : st1.trace = st.trace ++ t1 := by simpa using h1
      exact ⟨t1 ++ t2, by simp [h2, h1', List.append_assoc]⟩
    · exact ⟨t1, by simpa using h1⟩

theorem loadPreCrawlerAux_append {σ D I : Type} (env : Env σ D I) (l1 l2 : List String)
    (st : PreState σ) :
    loadPreCrawlerAux env (l1 ++ l2) st =
      match loadPreCrawlerAux env l1 st with
      | (st1, none) => loadPreCrawlerAux env l2 st1
      | (st1, some e) => (st1, some e) := by
  induction l1 generalizing st with
  | nil => rfl
  | cons p ps ih =>
    simp only [List.cons_append, loadPreCrawlerAux]
    rcases h : preStep env p st with ⟨st1, exc⟩
    cases exc with
    | none => simp [ih]
    | some e => rfl

theorem preStep_loadPaths {σ D I : Type} (env : Env σ D I) (p : String)
    (st : PreState σ) :
    loadPaths ((preStep env p st).1).trace = loadPaths st.trace ++ [p] := by
  unfold preStep
  rcases hl : env.load p with e | d
  · simp [hl, loadPaths, CallEvent.loadPath?]
  · by_cases hcap : env.hasPreHook d
    · rcases hu : env.preHook d st.settings with ⟨s2, r2⟩
      rcases r2 with e | u
      · simp [hl, hcap, hu, loadPaths, CallEvent.loadPath?]
      · simp [hl, hcap, hu, loadPaths, CallEvent.loadPath?]
    · simp [hl, hcap, loadPaths, CallEvent.loadPath?]

theorem loadPreCrawlerAux_loadPaths_of_none {σ D I : Type} (env : Env σ D I)
    (l : List String) (st : PreState σ)
    (h : (loadPreCrawlerAux env l st).2 = none) :
    loadPaths ((loadPreCrawlerAux env l st).1).trace = loadPaths st.trace ++ l := by
  induction l generalizing st with
  | nil => simp [loadPreCrawlerAux]
  | cons p ps ih =>
    simp only [loadPreCrawlerAux] at h ⊢
    rcases hs : preStep env p st with ⟨st1, exc⟩
    simp only [hs] at h ⊢
    rcases exc with _ | e
    · have hih := ih st1 (by simpa using h)
      have h2 := preStep_loadPaths env p st
      rw [hs] at h2
      simp [hih, h2]
    · simp at h

/-- Whether a trace event is one of the two kinds the pre-crawler phase can
emit: a `load` or a `preHook` invocation. -/
def CallEvent.isPrePhase {σ : Type} : CallEvent σ → Bool
  | .load _ => true
  | .preHook _ _ => true
  | _ => false

theorem preStep_events {σ D I : Type} (env : Env σ D I) (p : String)
    (st : PreState σ) (ev : CallEvent σ) (hev : ev ∈ ((preStep env p st).1).trace) :
    ev ∈ st.trace ∨ ev.isPrePhase = true := by
  unfold preStep at hev
  rcases hl : env.load p with e | d
  · simp [hl] at hev
    rcases hev with h | h
    · exact Or.inl h
    · exact Or.inr (by simp [h, CallEvent.isPrePhase])
  · by_cases hcap : env.hasPreHook d
    · rcases hu : env.preHook d st.settings with ⟨s2, r2⟩
      have hev' : ev ∈ st.trace ++ [CallEvent.load p] ++ [CallEvent.preHook p st.settings] := by
        rcases r2 with e | u
        · simpa [hl, hcap, hu] using hev
        · simpa [hl, hcap, hu] using hev
      simp at hev'
      rcases hev' with h | h | h
      · exact Or.inl h
      · exact Or.inr (by simp [h, CallEvent.isPrePhase])
      · exact Or.inr (by simp [h, CallEvent.isPrePhase])
    · simp [hl, hcap] at hev
      rcases hev with h | h
      · exact Or.inl h
      · exact Or.inr (by simp [h, CallEvent.isPrePhase])

theorem loadPreCrawlerAux_events {σ D I : Type} (env : Env σ D I)
    (l : List String) (st : PreState σ) (ev : CallEvent σ)
    (hev : ev ∈ ((loadPreCrawlerAux env l st).1).trace) :
    ev ∈ st.trace ∨ ev.isPrePhase = true := by
  induction l generalizing st with
  | nil => simpa [loadPreCrawlerAux] using Or.inl hev
  | cons p ps ih =>
    simp only [loadPreCrawlerAux] at hev
    rcases hs : preStep env p st with ⟨st1, exc⟩
    simp only [hs] at hev
    have hstep := preStep_events env p st ev
    rw [hs] at hstep
    rcases exc with _ | e
    · rcases ih st1 hev with h | h
      · exact hstep (by simpa using h)
      · exact Or.inr h
    · exact hstep (by simpa using hev)

theorem stepOne_postHookPaths {σ D I : Type} (env : Env σ D I) (p : String)
    (st : LoadState σ I) :
    ∃ t, postHookPaths ((stepOne env p st).1).trace = postHookPaths st.trace ++ t ∧
      t.Sublist [p] := by
  have haux : ∃ t, postHookPaths ((tryBody env p st).1).trace =
      postHookPaths st.trace ++ t ∧ t.Sublist [p] := by
    unfold tryBody
    rcases hl : env.load p with e | d
    · exact ⟨[], by simp [hl, postHookPaths, CallEvent.postHookPath?]⟩
    · rcases hb : env.build d st.settings with ⟨s2, r2⟩
      rcases r2 with e | inst
      · exact ⟨[], by simp [hl, hb, postHookPaths, CallEvent.postHookPath?]⟩
      · by_cases hcap : env.hasUpdateSettings inst
        · rcases hu : env.updateSettings inst s2 with ⟨s3, r3⟩
          rcases r3 with e | u
          · exact ⟨[p], by
              simp [hl, hb, hcap, hu, postHookPaths, CallEvent.postHookPath?]⟩
          · exact ⟨[p], by
              simp [hl, hb, hcap, hu, postHookPaths, CallEvent.postHookPath?]⟩
        · exact ⟨[], by simp [hl, hb, hcap, postHookPaths, CallEvent.postHookPath?]⟩
  unfold stepOne
  rcases hb : tryBody env p st with ⟨st1, exc⟩
  rw [hb] at haux
  rcases exc with _ | e
  · simpa using haux
  · rcases e with args | m
    · rcases args with _ | ⟨a, rest⟩
      · simpa using haux
      · simpa [postHookPaths, CallEvent.postHookPath?] using haux
    · simpa using haux

theorem loadSettingsAux_postHookPaths {σ D I : Type} (env : Env σ D I)
    (l : List String) (st : LoadState σ I) :
    ∃ t, postHookPaths ((loadSettingsAux env l st).1).trace =
      postHookPaths st.trace ++ t ∧ t.Sublist l := by
  induction l generalizing st with
  | nil => exact ⟨[], by simp [loadSettingsAux]⟩
  | cons p ps ih =>
    simp only [loadSettingsAux]
    rcases hs : stepOne env p st with ⟨st1, exc⟩
    have h1 := stepOne_postHookPaths env p st
    rw [hs] at h1
    rcases h1 with ⟨t1, h1, hsub1⟩
    rcases exc with _ | e
    · rcases ih st1 with ⟨t2, h2, hsub2⟩
      refine ⟨t1 ++ t2, ?_, ?_⟩
      · have h1' : postHookPaths st1.trace = postHookPaths st.trace ++ t1 := by
          simpa using h1
        simp [h2, h1', List.append_assoc]
      · exact (hsub1.append hsub2 : (t1 ++ t2).Sublist ([p] ++ ps))
    · refine ⟨t1, by simpa using h1, ?_⟩
      have h3 : (t1 ++ []).Sublist ([p] ++ ps) := hsub1.append (List.nil_sublist ps)
      simpa using h3

theorem preStep_preHookPaths {σ D I : Type} (env : Env σ D I) (p : String)
    (st : PreState σ) :
    ∃ t, preHookPaths ((preStep env p st).1).trace = preHookPaths st.trace ++ t ∧
      t.Sublist [p] := by
  unfold preStep
  rcases hl : env.load p with e | d
  · exact ⟨[], by simp [hl, preHookPaths, CallEvent.preHookPath?]⟩
  · by_cases hcap : env.hasPreHook d
    · rcases hu : env.preHook d st.settings with ⟨s2, r2⟩
      rcases r2 with e | u
      · exact ⟨[p], by simp [hl, hcap, hu, preHookPaths, CallEvent.preHookPath?]⟩
      · exact ⟨[p], by simp [hl, hcap, hu, preHookPaths, CallEvent.preHookPath?]⟩
    · exact ⟨[], by simp [hl, hcap, preHookPaths, CallEvent.preHookPath?]⟩

theorem loadPreCrawlerAux_preHookPaths {σ D I : Type} (env : Env σ D I)
    (l : List String) (st : PreState σ) :
    ∃ t, preHookPaths ((loadPreCrawlerAux env l st).1).trace =
      preHookPaths st.trace ++ t ∧ t.Sublist l := by
  induction l generalizing st with
  | nil => exact ⟨[], by simp [loadPreCrawlerAux]⟩
  | cons p ps ih =>
    simp only [loadPreCrawlerAux]
    rcases hs : preStep env p st with ⟨st1, exc⟩
    have h1 := preStep_preHookPaths env p st
    rw [hs] at h1
    rcases h1 with ⟨t1, h1, hsub1⟩
    rcases exc with _ | e
    · rcases ih st1 with ⟨t2, h2, hsub2⟩
      refine ⟨t1 ++ t2, ?_, ?_⟩
      · have h1' : preHookPaths st1.trace = preHookPaths st.trace ++ t1 := by
          simpa using h1
        simp [h2, h1', List.append_assoc]
      · exact (hsub1.append hsub2 : (t1 ++ t2).Sublist ([p] ++ ps))
    · refine ⟨t1, by simpa using h1, ?_⟩
      have h3 : (t1 ++ []).Sublist ([p] ++ ps) := hsub1.append (List.nil_sublist ps)
      simpa using h3

/-- The warning record produced by the `except NotConfigured as e` handler:
one warning with `e.args[0]` when `e.args` is nonempty, nothing otherwise. -/
def warnOf {I : Type} (clspath : String) : List String → List (LogEvent I)
  | [] => []
  | a :: _ => [.warning clspath a]

/-! Characterizations of one `load_settings` iteration, by where (and
whether) an exception is raised. -/

theorem stepOne_load_notConfigured {σ D I : Type} (env : Env σ D I) (p : String)
    (st : LoadState σ I) (args : List String)
    (hload : env.load p = .error (.notConfigured args)) :
    stepOne env p st =
      ({ st with
          log := st.log ++ warnOf p args,
          trace := st.trace ++ [.load p] }, none) := by
  rcases args with _ | ⟨a, rest⟩
  · simp [stepOne, tryBody, hload, warnOf]
  · simp [stepOne, tryBody, hload, warnOf]

theorem stepOne_load_other {σ D I : Type} (env : Env σ D I) (p : String)
    (st : LoadState σ I) (m : String)
    (hload : env.load p = .error (.other m)) :
    stepOne env p st =
      ({ st with trace := st.trace ++ [.load p] }, some (.other m)) := by
  simp [stepOne, tryBody, hload]

theorem stepOne_build_notConfigured {σ D I : Type} (env : Env σ D I) (p : String)
    (st : LoadState σ I) (d : D) (s2 : σ) (args : List String)
    (hload : env.load p = .ok d)
    (hbuild : env.build d st.settings = (s2, .error (.notConfigured args))) :
    stepOne env p st =
      ({ st with
          settings := s2,
          log := st.log ++ warnOf p args,
          trace := st.trace ++ [.load p, .build p] }, none) := by
  rcases args with _ | ⟨a, rest⟩
  · simp [stepOne, tryBody, hload, hbuild, warnOf]
  · simp [stepOne, tryBody, hload, hbuild, warnOf]

theorem stepOne_build_other {σ D I : Type} (env : Env σ D I) (p : String)
    (st : LoadState σ I) (d : D) (s2 : σ) (m : String)
    (hload : env.load p = .ok d)
    (hbuild : env.build d st.settings = (s2, .error (.other m))) :
    stepOne env p st =
      ({ st with
          settings := s2,
          trace := st.trace ++ [.load p, .build p] }, some (.other m)) := by
  simp [stepOne, tryBody, hload, hbuild]

theorem stepOne_no_hook {σ D I : Type} (env : Env σ D I) (p : String)
    (st : LoadState σ I) (d : D) (s2 : σ) (inst : I)
    (hload : env.load p = .ok d)
    (hbuild : env.build d st.settings = (s2, .ok inst))
    (hcap : env.hasUpdateSettings inst = false) :
    stepOne env p st =
      ({ st with
          settings := s2,
          addons := st.addons ++ [inst],
          trace := st.trace ++ [.load p, .build p] }, none) := by
  simp [stepOne, tryBody, hload, hbuild, hcap]

theorem stepOne_hook_ok {σ D I : Type} (env : Env σ D I) (p : String)
    (st : LoadState σ I) (d : D) (s2 s3 : σ) (inst : I)
    (hload : env.load p = .ok d)
    (hbuild : env.build d st.settings = (s2, .ok inst))
    (hcap : env.hasUpdateSettings inst = true)
    (hhook : env.updateSettings inst s2 = (s3, .ok ())) :
    stepOne env p st =
      ({ st with
          settings := s3,
          addons := st.addons ++ [inst],
          trace := st.trace ++ [.load p, .build p, .postHook p s2] }, none) := by
  simp [stepOne, tryBody, hload, hbuild, hcap, hhook]

theorem stepOne_hook_notConfigured {σ D I : Type} (env : Env σ D I) (p : String)
    (st : LoadState σ I) (d : D) (s2 s3 : σ) (inst : I) (args : List String)
    (hload : env.load p = .ok d)
    (hbuild : env.build d st.settings = (s2, .ok inst))
    (hcap : env.hasUpdateSettings inst = true)
    (hhook : env.updateSettings inst s2 = (s3, .error (.notConfigured args))) :
    stepOne env p st =
      ({ st with
          settings := s3,
          log := st.log ++ warnOf p args,
          trace := st.trace ++ [.load p, .build p, .postHook p s2] }, none) := by
  rcases args with _ | ⟨a, rest⟩
  · simp [stepOne, tryBody, hload, hbuild, hcap, hhook, warnOf]
  · simp [stepOne, tryBody, hload, hbuild, hcap, hhook, warnOf]

theorem stepOne_hook_other {σ D I : Type} (env : Env σ D I) (p : String)
    (st : LoadState σ I) (d : D) (s2 s3 : σ) (inst : I) (m : String)
    (hload : env.load p = .ok d)
    (hbuild : env.build d st.settings = (s2, .ok inst))
    (hcap : env.hasUpdateSettings inst = true)
    (hhook : env.updateSettings inst s2 = (s3, .error (.other m))) :
    stepOne env p st =
      ({ st with
          settings := s3,
          trace := st.trace ++ [.load p, .build p, .postHook p s2] },
       some (.other m)) := by
  simp [stepOne, tryBody, hload, hbuild, hcap, hhook]

/-- Splitting a `load_settings` run at an identifier `p` of the resolver
output, after the identifiers before it ran without a propagating
exception. -/
theorem loadSettings_split {σ D I : Type} (env : Env σ D I) (s : σ) (a : List I)
    (l1 l2 : List String) (p : String) (st1 : LoadState σ I)
    (hres : env.resolve s = l1 ++ p :: l2)
    (h1 : loadSettingsAux env l1 (initState s a) = (st1, none)) :
    loadSettings env s a = finishPhase
      (match stepOne env p st1 with
       | (st2, none) => loadSettingsAux env l2 st2
       | (st2, some e) => (st2, some e)) := by
  unfold loadSettings
  rw [hres, loadSettingsAux_append env l1 (p :: l2) (initState s a), h1]
  simp only [loadSettingsAux]

/-- The state reached after `load_settings` catches a `NotConfigured` raised
by `build_from_crawler` at class path `p`: settings as left by the failed
constructor, `addons` untouched, a warning exactly when the signal carried
a reason. -/
def skipState {σ I : Type} (st1 : LoadState σ I) (p : String) (s2 : σ)
    (args : List String) : LoadState σ I :=
  { st1 with
      settings := s2,
      log := st1.log ++ warnOf p args,
      trace := st1.trace ++ [.load p, .build p] }

/-- A concrete environment used to instantiate the general theorems.  The
settings object is an association list; the resolver returns its keys in
order; class paths are their own definitions and instances.  The add-on at
path `A` raises `NotConfigured` with a reason during construction; `F`
raises a fatal error during construction; `B` has an `update_settings` hook
that appends the pair `(K, 1)`; `H` has a hook that raises `NotConfigured`;
`bad` cannot be imported; `ncload` raises `NotConfigured` from the loader;
`P` and `Q` have `update_pre_crawler_settings` hooks, each appending a
marker pair to the settings. -/
def wEnv : Env (List (String × Nat)) String String where
  resolve s := s.map Prod.fst
  load p :=
    if p = "bad" then .error (.other "import error")
    else if p = "ncload" then .error (.notConfigured ["not importable"])
    else .ok p
  build d s :=
    if d = "A" then (s, .error (.notConfigured ["missing dep"]))
    else if d = "F" then (s, .error (.other "boom"))
    else (s, .ok d)
  hasUpdateSettings i := i == "B" || i == "H"
  updateSettings i s :=
    if i = "B" then (s ++ [("K", 1)], .ok ())
    else if i = "H" then (s, .error (.notConfigured ["late opt-out"]))
    else (s, .ok ())
  hasPreHook d := d == "P" || d == "Q"
  preHook d s :=
    if d = "P" then (s ++ [("PRE", 7)], .ok ())
    else if d = "Q" then (s ++ [("QRE", 9)], .ok ())
    else (s, .ok ())

/-- C1: in `load_settings`, when `build_from_crawler` for the class path `p`
raises `NotConfigured`, the add-on is never appended to `addons` (the
continuation state has the same `addons` as before `p`), a warning with the
carried reason is logged exactly when the signal carries one (`warnOf`),
every later identifier is still processed (the run continues with `l2`),
and the phase completes normally whenever the rest does. -/
theorem load_settings_notConfigured_isolated {σ D I : Type} (env : Env σ D I)
    (s : σ) (a : List I) (l1 l2 : List String) (p : String)
    (st1 : LoadState σ I) (d : D) (s2 : σ) (args : List String)
    (hres : env.resolve s = l1 ++ p :: l2)
    (h1 : loadSettingsAux env l1 (initState s a) = (st1, none))
    (hload : env.load p = .ok d)
    (hbuild : env.build d st1.settings = (s2, .error (.notConfigured args))) :
    loadSettings env s a = finishPhase (loadSettingsAux env l2 (skipState st1 p s2 args))
    ∧ (skipState st1 p s2 args).addons = st1.addons
    ∧ ((loadSettingsAux env l2 (skipState st1 p s2 args)).2 = none →
        (loadSettings env s a).2 = none) := by
  have hstep := stepOne_build_notConfigured env p st1 d s2 args hload hbuild
  have hmain : loadSettings env s a =
      finishPhase (loadSettingsAux env l2 (skipState st1 p s2 args)) := by
    rw [loadSettings_split env s a l1 l2 p st1 hres h1, hstep]
    rfl
  refine ⟨hmain, rfl, fun hrest => ?_⟩
  rw [hmain]
  rcases hr : loadSettingsAux env l2 (skipState st1 p s2 args) with ⟨st3, exc⟩
  rw [hr] at hrest
  rcases exc with _ | e
  · rfl
  · simp at hrest

/-- Witness for C1: in `wEnv` with add-ons `A` (construction raises
`NotConfigured`) then `B`, the phase completes without a propagating
exception. -/
theorem load_settings_notConfigured_isolated_witness :
    (loadSettings wEnv [("A", 1), ("B", 2)] ([] : List String)).2 = none := by
  have h := load_settings_notConfigured_isolated wEnv [("A", 1), ("B", 2)]
    ([] : List String) [] ["B"] "A" (initState [("A", 1), ("B", 2)] [])
    "A" [("A", 1), ("B", 2)] ["missing dep"] rfl rfl rfl rfl
  exact h.2.2 rfl

/-- C2: in `load_settings`, when the loader, the constructor, or the
`update_settings` hook of the class path `p` raises an exception that is
not `NotConfigured`, the exception propagates out of the phase, the final
`addons` list is exactly the one reached before `p`, and processing stops
at `p`: the `load` events of the run are those of the prefix followed by
`p` alone. -/
theorem load_settings_fatal_aborts {σ D I : Type} (env : Env σ D I)
    (s : σ) (a : List I) (l1 l2 : List String) (p : String)
    (st1 : LoadState σ I) (m : String)
    (hres : env.resolve s = l1 ++ p :: l2)
    (h1 : loadSettingsAux env l1 (initState s a) = (st1, none))
    (hraise : env.load p = .error (.other m)
      ∨ (∃ d s2, env.load p = .ok d ∧
          env.build d st1.settings = (s2, .error (.other m)))
      ∨ (∃ d s2 inst s3, env.load p = .ok d ∧
          env.build d st1.settings = (s2, .ok inst) ∧
          env.hasUpdateSettings inst = true ∧
          env.updateSettings inst s2 = (s3, .error (.other m)))) :
    (loadSettings env s a).2 = some (.other m)
    ∧ ((loadSettings env s a).1).addons = st1.addons
    ∧ loadPaths ((loadSettings env s a).1).trace = loadPaths st1.trace ++ [p] := by
  have hsplit := loadSettings_split env s a l1 l2 p st1 hres h1
  rcases hraise with hl | ⟨d, s2, hl, hb⟩ | ⟨d, s2, inst, s3, hl, hb, hcap, hu⟩
  · rw [stepOne_load_other env p st1 m hl] at hsplit
    rw [hsplit]
    refine ⟨rfl, rfl, ?_⟩
    simp [finishPhase, loadPaths, CallEvent.loadPath?]
  · rw [stepOne_build_other env p st1 d s2 m hl hb] at hsplit
    rw [hsplit]
    refine ⟨rfl, rfl, ?_⟩
    simp [finishPhase, loadPaths, CallEvent.loadPath?]
  · rw [stepOne_hook_other env p st1 d s2 s3 inst m hl hb hcap hu] at hsplit
    rw [hsplit]
    refine ⟨rfl, rfl, ?_⟩
    simp [finishPhase, loadPaths, CallEvent.loadPath?]

/-- Witness for C2: in `wEnv` with add-ons `B`, `F` (construction raises a
fatal error), `C`, the error propagates, `addons` holds exactly `B`'s
instance, and only `B` and `F` were ever processed. -/
theorem load_settings_fatal_aborts_witness :
    (loadSettings wEnv [("B", 1), ("F", 2), ("C", 3)] ([] : List String)).2 =
      some (.other "boom")
    ∧ ((loadSettings wEnv [("B", 1), ("F", 2), ("C", 3)] ([] : List String)).1).addons =
      ["B"]
    ∧ loadPaths ((loadSettings wEnv [("B", 1), ("F", 2), ("C", 3)]
        ([] : List String)).1).trace = ["B", "F"] := by
  have h := load_settings_fatal_aborts wEnv [("B", 1), ("F", 2), ("C", 3)]
    ([] : List String) ["B"] ["C"] "F"
    ({ settings := [("B", 1), ("F", 2), ("C", 3), ("K", 1)],
       addons := ["B"],
       log := [],
       trace := [.load "B", .build "B",
         .postHook "B" [("B", 1), ("F", 2), ("C", 3)]] })
    "boom" rfl rfl
    (Or.inr (Or.inl ⟨"F", [("B", 1), ("F", 2), ("C", 3), ("K", 1)], rfl, rfl⟩))
  refine ⟨h.1, ?_, ?_⟩
  · rw [h.2.1]
  · rw [h.2.2]
    rfl

theorem finishPhase_exc {σ I : Type} (r : LoadState σ I × Option Exc) :
    (finishPhase r).2 = r.2 := by
  rcases r with ⟨st, _ | e⟩ <;> rfl

theorem finishPhase_trace {σ I : Type} (r : LoadState σ I × Option Exc) :
    ((finishPhase r).1).trace = (r.1).trace := by
  rcases r with ⟨st, _ | e⟩ <;> rfl

theorem finishPhase_addons {σ I : Type} (r : LoadState σ I × Option Exc) :
    ((finishPhase r).1).addons = (r.1).addons := by
  rcases r with ⟨st, _ | e⟩ <;> rfl

theorem finishPhase_settings {σ I : Type} (r : LoadState σ I × Option Exc) :
    ((finishPhase r).1).settings = (r.1).settings := by
  rcases r with ⟨st, _ | e⟩ <;> rfl

theorem preStep_load_error {σ D I : Type} (env : Env σ D I) (p : String)
    (st : PreState σ) (e : Exc) (hload : env.load p = .error e) :
    preStep env p st = ({ st with trace := st.trace ++ [.load p] }, some e) := by
  simp [preStep, hload]

theorem preStep_hook_error {σ D I : Type} (env : Env σ D I) (p : String)
    (st : PreState σ) (d : D) (s2 : σ) (e : Exc)
    (hload : env.load p = .ok d)
    (hcap : env.hasPreHook d = true)
    (hhook : env.preHook d st.settings = (s2, .error e)) :
    preStep env p st =
      ({ st with
          settings := s2,
          trace := st.trace ++ [.load p, .preHook p st.settings] }, some e) := by
  simp [preStep, hload, hcap, hhook]

/-- Splitting a `load_pre_crawler_settings` run at an identifier `p` of the
resolver output, after the identifiers before it ran without a propagating
exception. -/
theorem loadPreCrawler_split {σ D I : Type} (env : Env σ D I) (s : σ)
    (l1 l2 : List String) (p : String) (st1 : PreState σ)
    (hres : env.resolve s = l1 ++ p :: l2)
    (h1 : loadPreCrawlerAux env l1 ⟨s, []⟩ = (st1, none)) :
    loadPreCrawlerSettings env s =
      match preStep env p st1 with
      | (st2, none) => loadPreCrawlerAux env l2 st2
      | (st2, some e) => (st2, some e) := by
  unfold loadPreCrawlerSettings
  rw [hres, loadPreCrawlerAux_append env l1 (p :: l2) ⟨s, []⟩, h1]
  simp only [loadPreCrawlerAux]

theorem preStep_hook_ok {σ D I : Type} (env : Env σ D I) (p : String)
    (st : PreState σ) (d : D) (s2 : σ)
    (hload : env.load p = .ok d)
    (hcap : env.hasPreHook d = true)
    (hhook : env.preHook d st.settings = (s2, .ok ())) :
    preStep env p st =
      ({ st with
          settings := s2,
          trace := st.trace ++ [.load p, .preHook p st.settings] }, none) := by
  simp [preStep, hload, hcap, hhook]

theorem preStep_trace_extend {σ D I : Type} (env : Env σ D I) (p : String)
    (st : PreState σ) :
    ∃ tl, ((preStep env p st).1).trace = st.trace ++ tl := by
  unfold preStep
  rcases hl : env.load p with e | d
  · exact ⟨[.load p], by simp [hl]⟩
  · by_cases hcap : env.hasPreHook d
    · rcases hu : env.preHook d st.settings with ⟨s2, r2⟩
      rcases r2 with e | u
      · exact ⟨[.load p, .preHook p st.settings], by simp [hl, hcap, hu]⟩
      · exact ⟨[.load p, .preHook p st.settings], by simp [hl, hcap, hu]⟩
    · exact ⟨[.load p], by simp [hl, hcap]⟩

theorem loadPreCrawlerAux_trace_extend {σ D I : Type} (env : Env σ D I)
    (l : List String) (st : PreState σ) :
    ∃ tl, ((loadPreCrawlerAux env l st).1).trace = st.trace ++ tl := by
  induction l generalizing st with
  | nil => exact ⟨[], by simp [loadPreCrawlerAux]⟩
  | cons p ps ih =>
    simp only [loadPreCrawlerAux]
    rcases hs : preStep env p st with ⟨st1, exc⟩
    have h1 := preStep_trace_extend env p st
    rw [hs] at h1
    rcases h1 with ⟨t1, h1⟩
    rcases exc with _ | e
    · rcases ih st1 with ⟨t2, h2⟩
      have h1' : st1.trace = st.trace ++ t1 := by simpa using h1
      exact ⟨t1 ++ t2, by simp [h2, h1', List.append_assoc]⟩
    · exact ⟨t1, by simpa using h1⟩

/-- C3 as stated is false on the code: the `except NotConfigured` clause of
`load_settings` also covers the `load_object` call, so a `NotConfigured`
raised by the loader for the single configured path `ncload` is caught:
the phase completes without a propagating exception, the add-on is skipped
with the warning, and `addons` stays empty. -/
theorem loader_notConfigured_is_caught_cex :
    (loadSettings wEnv [("ncload", 1)] ([] : List String)).2 = none
    ∧ ((loadSettings wEnv [("ncload", 1)] ([] : List String)).1).log =
      [.warning "ncload" "not importable", .info []]
    ∧ ((loadSettings wEnv [("ncload", 1)] ([] : List String)).1).addons = [] := by
  refine ⟨rfl, rfl, rfl⟩

/-- C3 amended: the `NotConfigured` handler of `load_settings` wraps the
whole per-identifier `try` body, including the `load_object` call: a
`NotConfigured` raised by the loader is caught — the identifier is skipped
with a warning exactly when the signal carries a reason and the phase
continues with the remaining identifiers — while a non-`NotConfigured`
loader failure propagates as fatal and stops processing at `p`. -/
theorem loader_exception_handling {σ D I : Type} (env : Env σ D I)
    (s : σ) (a : List I) (l1 l2 : List String) (p : String)
    (st1 : LoadState σ I)
    (hres : env.resolve s = l1 ++ p :: l2)
    (h1 : loadSettingsAux env l1 (initState s a) = (st1, none)) :
    (∀ args, env.load p = .error (.notConfigured args) →
      loadSettings env s a = finishPhase (loadSettingsAux env l2
        ({ st1 with
            log := st1.log ++ warnOf p args,
            trace := st1.trace ++ [.load p] })))
    ∧ (∀ m, env.load p = .error (.other m) →
        (loadSettings env s a).2 = some (.other m)
        ∧ loadPaths ((loadSettings env s a).1).trace =
          loadPaths st1.trace ++ [p]) := by
  have hsplit := loadSettings_split env s a l1 l2 p st1 hres h1
  constructor
  · intro args hload
    rw [hsplit, stepOne_load_notConfigured env p st1 args hload]
  · intro m hload
    rw [hsplit, stepOne_load_other env p st1 m hload]
    refine ⟨rfl, ?_⟩
    simp [finishPhase, loadPaths, CallEvent.loadPath?]

/-- Witness for the amended C3: a `NotConfigured` from the loader (`ncload`)
is caught and the next add-on `B` still activates, while an import error
(`bad`) propagates. -/
theorem loader_exception_handling_witness :
    (loadSettings wEnv [("ncload", 1), ("B", 2)] ([] : List String)).2 = none
    ∧ ((loadSettings wEnv [("ncload", 1), ("B", 2)] ([] : List String)).1).addons =
      ["B"]
    ∧ (loadSettings wEnv [("bad", 1)] ([] : List String)).2 =
      some (.other "import error") := by
  have hnc := loader_exception_handling wEnv [("ncload", 1), ("B", 2)]
    ([] : List String) [] ["B"] "ncload"
    (initState [("ncload", 1), ("B", 2)] []) rfl rfl
  have hbad := loader_exception_handling wEnv [("bad", 1)]
    ([] : List String) [] [] "bad" (initState [("bad", 1)] []) rfl rfl
  refine ⟨?_, ?_, (hbad.2 "import error" rfl).1⟩
  · rw [hnc.1 ["not importable"] rfl]
    rfl
  · rw [hnc.1 ["not importable"] rfl]
    rfl

/-- C6: `load_pre_crawler_settings` applies no failure isolation: an
exception raised by the loader or by an `update_pre_crawler_settings` hook
for class path `p` — including `NotConfigured` — propagates out of the
phase, and processing stops at `p`: the identifiers after it are never
loaded. -/
theorem pre_crawler_no_isolation {σ D I : Type} (env : Env σ D I) (s : σ)
    (l1 l2 : List String) (p : String) (st1 : PreState σ) (e : Exc)
    (hres : env.resolve s = l1 ++ p :: l2)
    (h1 : loadPreCrawlerAux env l1 ⟨s, []⟩ = (st1, none))
    (hraise : env.load p = .error e
      ∨ (∃ d s2, env.load p = .ok d ∧ env.hasPreHook d = true ∧
          env.preHook d st1.settings = (s2, .error e))) :
    (loadPreCrawlerSettings env s).2 = some e
    ∧ loadPaths ((loadPreCrawlerSettings env s).1).trace =
      loadPaths st1.trace ++ [p] := by
  have hsplit := loadPreCrawler_split env s l1 l2 p st1 hres h1
  rcases hraise with hl | ⟨d, s2, hl, hcap, hu⟩
  · rw [preStep_load_error env p st1 e hl] at hsplit
    rw [hsplit]
    refine ⟨rfl, ?_⟩
    simp [loadPaths, CallEvent.loadPath?]
  · rw [preStep_hook_error env p st1 d s2 e hl hcap hu] at hsplit
    rw [hsplit]
    refine ⟨rfl, ?_⟩
    simp [loadPaths, CallEvent.loadPath?]

/-- Witness for C6: in the pre-crawler phase over `P`, `ncload`, `B`, the
`NotConfigured` raised while loading `ncload` propagates (it is not caught)
and `B` is never loaded. -/
theorem pre_crawler_no_isolation_witness :
    (loadPreCrawlerSettings wEnv [("P", 1), ("ncload", 2), ("B", 3)]).2 =
      some (.notConfigured ["not importable"])
    ∧ loadPaths ((loadPreCrawlerSettings wEnv
        [("P", 1), ("ncload", 2), ("B", 3)]).1).trace = ["P", "ncload"] := by
  have h := pre_crawler_no_isolation wEnv [("P", 1), ("ncload", 2), ("B", 3)]
    ["P"] ["B"] "ncload"
    ({ settings := [("P", 1), ("ncload", 2), ("B", 3), ("PRE", 7)],
       trace := [.load "P", .preHook "P" [("P", 1), ("ncload", 2), ("B", 3)]] })
    (.notConfigured ["not importable"]) rfl rfl (Or.inl rfl)
  refine ⟨h.1, ?_⟩
  rw [h.2]
  rfl

/-- C7: `load_pre_crawler_settings` never constructs an add-on instance and
never invokes a post-context hook: every external call it makes is either a
`load_object` or an `update_pre_crawler_settings` invocation (which receives
only the settings).  The operation is a classmethod whose state is just the
settings object: it has no `addons` component at all. -/
theorem pre_crawler_only_loads_and_pre_hooks {σ D I : Type} (env : Env σ D I)
    (s : σ) (ev : CallEvent σ)
    (hev : ev ∈ ((loadPreCrawlerSettings env s).1).trace) :
    ev.isPrePhase = true := by
  rcases loadPreCrawlerAux_events env (env.resolve s) ⟨s, []⟩ ev hev with h | h
  · simp at h
  · exact h

/-- Witness for C7: in a concrete pre-crawler run the `load` event for `P`
occurs in the trace and is classified as a pre-phase event. -/
theorem pre_crawler_only_loads_and_pre_hooks_witness :
    (CallEvent.load "P" : CallEvent (List (String × Nat))).isPrePhase = true := by
  exact pre_crawler_only_loads_and_pre_hooks wEnv [("P", 1)] (.load "P")
    (by decide)

/-- C4: both phases process identifiers exactly in the order produced by the
resolver on the given settings: when a phase completes without a propagating
exception its sequence of `load_object` calls equals the resolver output
(hence the two phases process identical sequences on the same
configuration), and the hook invocations of each phase form an in-order
subsequence of that output. -/
theorem phases_follow_resolver_order {σ D I : Type} (env : Env σ D I) (s : σ)
    (a : List I)
    (hpost : (loadSettings env s a).2 = none)
    (hpre : (loadPreCrawlerSettings env s).2 = none) :
    loadPaths ((loadSettings env s a).1).trace = env.resolve s
    ∧ loadPaths ((loadPreCrawlerSettings env s).1).trace = env.resolve s
    ∧ (postHookPaths ((loadSettings env s a).1).trace).Sublist (env.resolve s)
    ∧ (preHookPaths ((loadPreCrawlerSettings env s).1).trace).Sublist
      (env.resolve s) := by
  have hpost' : (loadSettingsAux env (env.resolve s) (initState s a)).2 = none := by
    rw [← finishPhase_exc]
    exact hpost
  have hpre' : (loadPreCrawlerAux env (env.resolve s) ⟨s, []⟩).2 = none := hpre
  have htr : ((loadSettings env s a).1).trace =
      ((loadSettingsAux env (env.resolve s) (initState s a)).1).trace :=
    finishPhase_trace _
  refine ⟨?_, ?_, ?_, ?_⟩
  · rw [htr, loadSettingsAux_loadPaths_of_none env _ _ hpost']
    simp [initState, loadPaths]
  · show loadPaths ((loadPreCrawlerAux env (env.resolve s) ⟨s, []⟩).1).trace =
      env.resolve s
    rw [loadPreCrawlerAux_loadPaths_of_none env _ _ hpre']
    simp [loadPaths]
  · rcases loadSettingsAux_postHookPaths env (env.resolve s) (initState s a) with
      ⟨t, ht, hsub⟩
    rw [htr, ht]
    simpa [initState, postHookPaths] using hsub
  · rcases loadPreCrawlerAux_preHookPaths env (env.resolve s) ⟨s, []⟩ with
      ⟨t, ht, hsub⟩
    show (preHookPaths ((loadPreCrawlerAux env (env.resolve s) ⟨s, []⟩).1).trace).Sublist
      (env.resolve s)
    rw [ht]
    simpa [preHookPaths] using hsub

/-- Witness for C4: over the configuration with `P` then `B`, both phases
load exactly the sequence `P`, `B`. -/
theorem phases_follow_resolver_order_witness :
    loadPaths ((loadSettings wEnv [("P", 1), ("B", 2)] ([] : List String)).1).trace =
      ["P", "B"]
    ∧ loadPaths ((loadPreCrawlerSettings wEnv [("P", 1), ("B", 2)]).1).trace =
      ["P", "B"] := by
  have h := phases_follow_resolver_order wEnv [("P", 1), ("B", 2)]
    ([] : List String) rfl rfl
  exact ⟨h.1, h.2.1⟩

/-- C5: in each phase the hooks run sequentially on the shared settings in
resolver order, so a later hook observes every earlier mutation of that
phase.  Phase 2: the `update_settings` hook of identifier `p` is invoked
with exactly the settings value produced by processing all identifiers
before `p` (and `p`'s own load and construction).  Phase 1: the
`update_pre_crawler_settings` hook of identifier `p` is invoked with
exactly the settings value produced by processing all identifiers before
`p`. -/
theorem later_hook_observes_earlier_mutations {σ D I : Type} (env : Env σ D I)
    (s : σ) :
    (∀ (a : List I) (l1 l2 : List String) (p : String) (st1 : LoadState σ I)
        (d : D) (inst : I) (s2 : σ),
      env.resolve s = l1 ++ p :: l2 →
      loadSettingsAux env l1 (initState s a) = (st1, none) →
      env.load p = .ok d →
      env.build d st1.settings = (s2, .ok inst) →
      env.hasUpdateSettings inst = true →
      CallEvent.postHook p s2 ∈ ((loadSettings env s a).1).trace)
    ∧ (∀ (l1 l2 : List String) (p : String) (st1 : PreState σ) (d : D),
      env.resolve s = l1 ++ p :: l2 →
      loadPreCrawlerAux env l1 ⟨s, []⟩ = (st1, none) →
      env.load p = .ok d →
      env.hasPreHook d = true →
      CallEvent.preHook p st1.settings ∈
        ((loadPreCrawlerSettings env s).1).trace) := by
  constructor
  · intro a l1 l2 p st1 d inst s2 hres h1 hload hbuild hcap
    have hsplit := loadSettings_split env s a l1 l2 p st1 hres h1
    rcases hu : env.updateSettings inst s2 with ⟨s3, r3⟩
    rcases r3 with e | u
    · rcases e with args | m
      · rw [stepOne_hook_notConfigured env p st1 d s2 s3 inst args hload hbuild
          hcap hu] at hsplit
        rw [hsplit, finishPhase_trace]
        rcases loadSettingsAux_trace_extend env l2
          ({ st1 with
              settings := s3,
              log := st1.log ++ warnOf p args,
              trace := st1.trace ++ [.load p, .build p, .postHook p s2] }) with
          ⟨tl, htl⟩
        rw [htl]
        simp
      · rw [stepOne_hook_other env p st1 d s2 s3 inst m hload hbuild hcap hu]
          at hsplit
        rw [hsplit, finishPhase_trace]
        simp
    · rw [stepOne_hook_ok env p st1 d s2 s3 inst hload hbuild hcap hu] at hsplit
      rw [hsplit, finishPhase_trace]
      rcases loadSettingsAux_trace_extend env l2
        ({ st1 with
            settings := s3,
            addons := st1.addons ++ [inst],
            trace := st1.trace ++ [.load p, .build p, .postHook p s2] }) with
        ⟨tl, htl⟩
      rw [htl]
      simp
  · intro l1 l2 p st1 d hres h1 hload hcap
    have hsplit := loadPreCrawler_split env s l1 l2 p st1 hres h1
    rcases hu : env.preHook d st1.settings with ⟨s2, r2⟩
    rcases r2 with e | u
    · rw [preStep_hook_error env p st1 d s2 e hload hcap hu] at hsplit
      rw [hsplit]
      simp
    · cases u
      rw [preStep_hook_ok env p st1 d s2 hload hcap hu] at hsplit
      rw [hsplit]
      rcases loadPreCrawlerAux_trace_extend env l2
        ({ st1 with
            settings := s2,
            trace := st1.trace ++ [.load p, .preHook p st1.settings] }) with
        ⟨tl, htl⟩
      rw [htl]
      simp

/-- Witness for C5, one instance per phase.  Phase 2: add-on `B`
(priority 1) appends `(K, 1)` to the settings in its `update_settings`
hook; the hook of add-on `H` (priority 2) is then invoked with a settings
value containing `(K, 1)`.  Phase 1: add-on `P` (priority 1) appends
`(PRE, 7)` in its `update_pre_crawler_settings` hook; the pre-hook of
add-on `Q` (priority 2) is then invoked with a settings value containing
`(PRE, 7)`. -/
theorem later_hook_observes_earlier_mutations_witness :
    CallEvent.postHook "H" [("B", 1), ("H", 2), ("K", 1)] ∈
      ((loadSettings wEnv [("B", 1), ("H", 2)] ([] : List String)).1).trace
    ∧ CallEvent.preHook "Q" [("P", 1), ("Q", 2), ("PRE", 7)] ∈
      ((loadPreCrawlerSettings wEnv [("P", 1), ("Q", 2)]).1).trace := by
  constructor
  · exact (later_hook_observes_earlier_mutations wEnv [("B", 1), ("H", 2)]).1
      ([] : List String) ["B"] [] "H"
      ({ settings := [("B", 1), ("H", 2), ("K", 1)],
         addons := ["B"],
         log := [],
         trace := [.load "B", .build "B", .postHook "B" [("B", 1), ("H", 2)]] })
      "H" "H" [("B", 1), ("H", 2), ("K", 1)] rfl rfl rfl rfl rfl
  · exact (later_hook_observes_earlier_mutations wEnv [("P", 1), ("Q", 2)]).2
      ["P"] [] "Q"
      ({ settings := [("P", 1), ("Q", 2), ("PRE", 7)],
         trace := [.load "P", .preHook "P" [("P", 1), ("Q", 2)]] })
      "Q" rfl rfl rfl rfl

/-- C8: once construction of the add-on at path `p` succeeded with instance
`inst`, its `update_settings` hook is invoked iff the instance exposes it
(`hasUpdateSettings`); when the hook is absent the instance is appended
unchanged; when the hook raises `NotConfigured` the instance is discarded
and the iteration still succeeds; when the hook returns the instance is
appended. -/
theorem post_hook_gating {σ D I : Type} (env : Env σ D I) (p : String)
    (st : LoadState σ I) (d : D) (inst : I) (s2 : σ)
    (hload : env.load p = .ok d)
    (hbuild : env.build d st.settings = (s2, .ok inst)) :
    (env.hasUpdateSettings inst = true →
      CallEvent.postHook p s2 ∈ ((stepOne env p st).1).trace)
    ∧ (env.hasUpdateSettings inst = false →
        stepOne env p st =
          ({ st with
              settings := s2,
              addons := st.addons ++ [inst],
              trace := st.trace ++ [.load p, .build p] }, none))
    ∧ (∀ s3 args, env.hasUpdateSettings inst = true →
        env.updateSettings inst s2 = (s3, .error (.notConfigured args)) →
        ((stepOne env p st).1).addons = st.addons ∧ (stepOne env p st).2 = none)
    ∧ (∀ s3, env.hasUpdateSettings inst = true →
        env.updateSettings inst s2 = (s3, .ok ()) →
        ((stepOne env p st).1).addons = st.addons ++ [inst] ∧
        (stepOne env p st).2 = none) := by
  refine ⟨?_, ?_, ?_, ?_⟩
  · intro hcap
    rcases hu : env.updateSettings inst s2 with ⟨s3, r3⟩
    rcases r3 with e | u
    · rcases e with args | m
      · rw [stepOne_hook_notConfigured env p st d s2 s3 inst args hload hbuild
          hcap hu]
        simp
      · rw [stepOne_hook_other env p st d s2 s3 inst m hload hbuild hcap hu]
        simp
    · rw [stepOne_hook_ok env p st d s2 s3 inst hload hbuild hcap hu]
      simp
  · intro hcap
    exact stepOne_no_hook env p st d s2 inst hload hbuild hcap
  · intro s3 args hcap hu
    rw [stepOne_hook_notConfigured env p st d s2 s3 inst args hload hbuild
      hcap hu]
    exact ⟨rfl, rfl⟩
  · intro s3 hcap hu
    rw [stepOne_hook_ok env p st d s2 s3 inst hload hbuild hcap hu]
    exact ⟨rfl, rfl⟩

/-- Witness for C8: for add-on `B` (which exposes a succeeding hook), the
hook is invoked and the instance is appended; the iteration raises
nothing. -/
theorem post_hook_gating_witness :
    ((stepOne wEnv "B" (initState [("B", 1)] [])).1).addons = ["B"]
    ∧ (stepOne wEnv "B" (initState [("B", 1)] [])).2 = none
    ∧ CallEvent.postHook "B" [("B", 1)] ∈
      ((stepOne wEnv "B" (initState [("B", 1)] [])).1).trace := by
  have h := post_hook_gating wEnv "B" (initState [("B", 1)] []) "B" "B"
    [("B", 1)] rfl rfl
  have h4 := h.2.2.2 [("B", 1), ("K", 1)] rfl rfl
  exact ⟨by simpa using h4.1, h4.2, h.1 rfl⟩

/-- Insert an identifier-priority pair into a priority-sorted list, keeping
earlier entries of strictly smaller priority in front (stable). -/
def insertByPrio (x : String × Nat) : List (String × Nat) → List (String × Nat)
  | [] => [x]
  | y :: ys => if x.2 < y.2 then x :: y :: ys else y :: insertByPrio x ys

/-- Modelled from the spec: `build_component_list` (the Component Resolver,
whose code is not part of this repository slice) turns the raw
`{identifier: priority}` mapping into a deterministic ordered sequence of
identifiers, ascending by priority value.  Realised as a stable insertion
sort by priority. -/
def buildComponentList (m : List (String × Nat)) : List String :=
  (m.foldr insertByPrio []).map Prod.fst

/-- Settings object for the example scenario of the spec: the `ADDONS`
mapping plus a key-value store (the boolean `ENABLED_FEATURE=true` is
represented as the entry `("ENABLED_FEATURE", 1)`). -/
structure ScenarioSettings where
  addons : List (String × Nat)
  kv : List (String × Nat)
deriving DecidableEq, Repr

/-- Environment of the example scenario: `pkg.Alpha` raises `NotConfigured`
with reason `"no optional dependency"` during construction; `pkg.Beta`
constructs to `BetaInstance`, whose `update_settings` hook appends
`("ENABLED_FEATURE", 1)` to the store.  The resolver is the modelled
`buildComponentList` applied to the `ADDONS` mapping of the settings. -/
def scenarioEnv : Env ScenarioSettings String String where
  resolve s := buildComponentList s.addons
  load p := .ok p
  build d s :=
    if d = "pkg.Alpha" then (s, .error (.notConfigured ["no optional dependency"]))
    else (s, .ok "BetaInstance")
  hasUpdateSettings i := i == "BetaInstance"
  updateSettings _ s := ({ s with kv := s.kv ++ [("ENABLED_FEATURE", 1)] }, .ok ())
  hasPreHook _ := false
  preHook _ s := (s, .ok ())

/-- The Phase 2 run of the example scenario: configuration
`{"pkg.Alpha": 100, "pkg.Beta": 200}`, empty store, fresh manager. -/
def scenarioRun : LoadState ScenarioSettings String × Option Exc :=
  loadSettings scenarioEnv ⟨[("pkg.Alpha", 100), ("pkg.Beta", 200)], []⟩ []

/-- C9: in the example scenario the phase completes, a warning naming
`pkg.Alpha` with reason `"no optional dependency"` is logged, `addons` is
exactly `[BetaInstance]`, and the store afterwards contains
`ENABLED_FEATURE=true`. -/
theorem alpha_beta_scenario :
    scenarioRun.2 = none
    ∧ LogEvent.warning "pkg.Alpha" "no optional dependency" ∈ (scenarioRun.1).log
    ∧ (scenarioRun.1).addons = ["BetaInstance"]
    ∧ ((scenarioRun.1).settings).kv = [("ENABLED_FEATURE", 1)] := by
  refine ⟨rfl, ?_, rfl, rfl⟩
  decide

/-- The manager state owned by `AddonManager`: the list of activated add-on
instances (the crawler reference lives in `Env.build`). -/
structure AddonManager (I : Type) where
  addons : List I
deriving DecidableEq, Repr

/-- `AddonManager.__init__`: `self.addons = []`. -/
def AddonManager.new (I : Type) : AddonManager I := ⟨[]⟩

/-- C10: `addons` starts empty at construction and `load_settings` only ever
appends to it: any call leaves the incoming instances in place, in order,
before the newly activated ones, so a second call extends what the first
left rather than replacing it. -/
theorem addons_grow_monotonically {σ D I : Type} (env : Env σ D I) :
    (AddonManager.new I).addons = ([] : List I)
    ∧ (∀ (s : σ) (a : List I), ∃ tl,
        ((loadSettings env s a).1).addons = a ++ tl)
    ∧ (∀ (s s2 : σ) (a : List I), ∃ tl,
        ((loadSettings env s2 (((loadSettings env s a).1).addons)).1).addons =
          (((loadSettings env s a).1).addons) ++ tl) := by
  have hgrow : ∀ (s : σ) (a : List I), ∃ tl,
      ((loadSettings env s a).1).addons = a ++ tl := by
    intro s a
    rcases loadSettingsAux_addons_extend env (env.resolve s) (initState s a) with
      ⟨tl, h⟩
    refine ⟨tl, ?_⟩
    rw [loadSettings, finishPhase_addons]
    simpa [initState] using h
  exact ⟨rfl, hgrow, fun s s2 a => hgrow s2 (((loadSettings env s a).1).addons)⟩

end Scrapy
